import Mathlib

/-!
Verification of the evm-bully transaction replayer.

Shallow embedding of the replayer package: the chain indexer (`traverse`),
the replay step generator (`startTxGenerator`), the batch-submitting
consumer (`Replay`), the result verifier (`procTxResult` / `showTx`) and
the retry helper (`ExponentialBackoff`).  External collaborators (the
source-chain database, `getBlockContext`, `FormatNearAmount`, the
begin-chain/begin-block step constructors and the NEAR RPC client) are
modelled as parameters bundled in `Env` resp. response oracles.

Machine integers of the Go code are modelled as `Nat` (all quantities
involved are non-negative); Go panics are modelled as explicit `panicked`
outcomes; fallible Go calls return `Except`/`Option`.
-/

namespace Bully

/-- A block hash (opaque identifier). -/
abbrev Hash := Nat

/-- A byte string. -/
abbrev Bytes := List Nat

/-- A source-chain transaction as the replayer sees it: the decoded fields
used by `showTx`, plus the result of its canonical binary encoding
(`tx.MarshalBinary()`), which may fail with an error. -/
structure SourceTx where
  nonce : Nat
  gasPrice : Nat
  gasLimit : Nat
  toAddr : Option Bytes
  value : Nat
  data : Bytes
  rlp : Except String Bytes

/-- A source-chain block: parent hash, ordered transactions, and the result
of `getBlockContext` (modelled abstractly; the replayer only threads the
context value through to `beginBlockTx` and aborts on its error). -/
structure Block where
  parentHash : Hash
  transactions : List SourceTx
  getCtx : Except String Nat

/-- The replayer's `Tx` step record (ReplayStep): a comment, an optional
method call (method name + args), an optional back-reference to the source
transaction, and an optional error.  Field defaults are the Go zero
values. -/
structure Tx where
  comment : String := ""
  methodName : String := ""
  args : Bytes := []
  ethTx : Option SourceTx := none
  error : Option String := none

/-- A pure comment step. -/
def mkComment (s : String) : Tx := { comment := s }

/-- A pure error step. -/
def mkError (e : String) : Tx := { error := some e }

/-- External collaborators of the generator: the block database
(`rawdb.ReadBlock`), the formatting helper (`FormatNearAmount` composed
with `strconv.FormatUint`), and the bootstrap / begin-block step
constructors (`beginChainTx`, `beginBlockTx`; the latter receives the gas
budget and the block context). -/
structure Env where
  db : Hash → Nat → Option Block
  fmtNear : Nat → Except String String
  beginChainTx : Tx
  beginBlockTx : Nat → Nat → Tx

/-- The replayer configuration (fields of the Go `Replayer` struct that the
verified components read). -/
structure Replayer where
  gas : Nat
  skip : Bool
  batch : Bool
  batchSize : Nat
  startBlock : Nat
  startTx : Nat
  breakBlock : Nat
  breakTx : Nat

/-- Error message of a failed block read (`fmt.Errorf` in `traverse` and in
the generator; the hash is rendered abstractly). -/
def readBlockErrMsg (h : Nat) (bh : Hash) : String :=
  "cannot read block at height " ++ toString h ++ " with hash " ++ toString bh

/-- The backwards-walking loop of `traverse`: while the height is positive,
read the parent hash, decrement the height, read the parent block from the
database (failing if absent) and append the parent hash to the collected
list. -/
def traverseLoop (db : Hash → Nat → Option Block) :
    Block → Nat → List Hash → Except String (List Hash)
  | _, 0, blocks => .ok blocks
  | b, n + 1, blocks =>
    match db b.parentHash n with
    | none => .error (readBlockErrMsg n b.parentHash)
    | some b2 => traverseLoop db b2 n (blocks ++ [b.parentHash])

/-- `traverse` of `replayer.go`: walk the chain backwards from block `b` at
the given height down to genesis collecting parent hashes, then reverse the
collected sequence. -/
def traverse (db : Hash → Nat → Option Block) (b : Block) (blockHeight : Nat) :
    Except String (List Hash) :=
  (traverseLoop db b blockHeight []).map List.reverse

/-- A valid parent-pointer chain for heights below `H`: `hashOf k` is the
hash of the block `chain k`, the database resolves it at height `k`, and
every block's parent hash is the hash of the block one height below. -/
def ValidChain (db : Hash → Nat → Option Block) (chain : Nat → Block)
    (hashOf : Nat → Hash) (H : Nat) : Prop :=
  (∀ k, k < H → db (hashOf k) k = some (chain k)) ∧
  (∀ k, k < H → (chain (k + 1)).parentHash = hashOf k)

lemma traverseLoop_chain (db : Hash → Nat → Option Block) (chain : Nat → Block)
    (hashOf : Nat → Hash) (H : Nat) (hv : ValidChain db chain hashOf H) :
    ∀ n, n ≤ H → ∀ acc, traverseLoop db (chain n) n acc =
      .ok (acc ++ ((List.range n).map hashOf).reverse) := by
  intro n
  induction n with
  | zero => intro _ acc; simp [traverseLoop]
  | succ m ih =>
    intro hle acc
    have hm : m < H := lt_of_lt_of_le (Nat.lt_succ_self m) hle
    have hp : (chain (m + 1)).parentHash = hashOf m := hv.2 m hm
    have hd : db (hashOf m) m = some (chain m) := hv.1 m hm
    simp only [traverseLoop, hp, hd]
    rw [ih (le_of_lt hm) (acc ++ [hashOf m])]
    rw [List.range_succ]
    simp [List.append_assoc]

/-- Claim C1: for every chain whose block at height `H` has a valid
parent-pointer chain down to genesis (with pairwise distinct block hashes),
`traverse`, given the block at height `H` and the height `H`, returns the
list of the `H` block hashes of heights `0` through `H-1` in ascending
height order (position `i` holds the hash of height `i`), with no
duplicates. -/
theorem chainIndexer_traverse_correct (db : Hash → Nat → Option Block)
    (chain : Nat → Block) (hashOf : Nat → Hash) (H : Nat)
    (hv : ValidChain db chain hashOf H)
    (hinj : ∀ j k, j < H → k < H → hashOf j = hashOf k → j = k) :
    traverse db (chain H) H = .ok ((List.range H).map hashOf) ∧
    ((List.range H).map hashOf).length = H ∧
    ((List.range H).map hashOf).Nodup := by
  refine ⟨?_, by simp, ?_⟩
  · unfold traverse
    rw [traverseLoop_chain db chain hashOf H hv H le_rfl []]
    simp [Except.map]
  · exact (List.nodup_range H).map_on fun j hj k hk h =>
      hinj j k (List.mem_range.mp hj) (List.mem_range.mp hk) h

/-- Concrete database for the `traverse` witness: the hash of the block at
height `n` is `n` itself, so the block with hash `h` exists exactly at
height `h`. -/
def c1db : Hash → Nat → Option Block :=
  fun h n => if h = n then some ⟨n - 1, [], .ok 0⟩ else none

/-- Concrete chain for the `traverse` witness. -/
def c1chain : Nat → Block := fun k => ⟨k - 1, [], .ok 0⟩

/-- Witness for C1 at `H = 2`: the hypotheses of
`chainIndexer_traverse_correct` hold for the concrete two-block chain and
the indexer returns the two parent hashes in ascending order. -/
theorem chainIndexer_traverse_correct_witness :
    traverse c1db (c1chain 2) 2 = .ok ((List.range 2).map id) :=
  (chainIndexer_traverse_correct c1db c1chain id 2
    ⟨fun k _ => by simp [c1db, c1chain], fun k _ => by simp [c1chain]⟩
    (fun _ _ _ _ h => h)).1

/-- Comment text for a block skipped by the start cursor. -/
def skipBlockMsg (h : Nat) : String := "skipping block " ++ toString h

/-- Comment text for a block-level break (`BreakTx == 0`). -/
def breakBlockMsg (h : Nat) : String := "breaking block " ++ toString h

/-- Comment text for a transaction skipped by the start cursor. -/
def skipTxMsg (i h : Nat) : String :=
  "skipping transaction " ++ toString i ++ " (in block " ++ toString h ++ ")"

/-- Comment text for a transaction-level break. -/
def breakTxMsg (i h : Nat) : String :=
  "breaking at transaction " ++ toString i ++ " (in block " ++ toString h ++ ")"

/-- Comment text for an empty block whose `begin_block()` is skipped. -/
def emptyBlockMsg (h : Nat) : String :=
  "begin_block() skipped for empty block " ++ toString h

/-- Diagnostic comment of a submission step. -/
def submitMsg (h i sz : Nat) (amt : String) : String :=
  "submit(" ++ toString h ++ ", tx=" ++ toString i ++ ", tx_size=" ++
    toString sz ++ ", gas=" ++ amt ++ "\u24c3)"

/-- How the inner (per-transaction) loop of the generator ends: normally
(next block), via `break outer` (queue is closed), via `return` after an
error step (queue left open), or by a Go runtime panic. -/
inductive InnerRes where
  | normal
  | broke
  | errored
  | panicked
deriving DecidableEq, Repr

/-- How the generator goroutine ends: `closed` (the queue is closed, after
the block list is exhausted or a break fired), `errored` (the goroutine
returned after emitting an error step), or `panicked` (runtime panic, e.g.
integer division by zero). -/
inductive GenOutcome where
  | closed
  | errored
  | panicked
deriving DecidableEq, Repr

/-- The inner loop of `startTxGenerator` over the transactions of the block
at height `h`, starting at transaction index `i`: check the transaction
break point, then the start cursor, then marshal the transaction, compute
`Gas / uint64(BatchSize)` (a Go panic when `BatchSize = 0`), format the
amount and emit the submission step. -/
def genTxLoop (r : Replayer) (env : Env) (h : Nat) :
    Nat → List SourceTx → List Tx × InnerRes
  | _, [] => ([], .normal)
  | i, tx :: rest =>
    if r.breakBlock ≠ 0 ∧ h = r.breakBlock ∧ i = r.breakTx then
      ([mkComment (breakTxMsg i h)], .broke)
    else if h = r.startBlock ∧ i < r.startTx then
      let res := genTxLoop r env h (i + 1) rest
      (mkComment (skipTxMsg i h) :: res.1, res.2)
    else
      match tx.rlp with
      | .error e => ([mkError e], .errored)
      | .ok bs =>
        if r.batchSize = 0 then ([], .panicked)
        else
          match env.fmtNear (r.gas / r.batchSize) with
          | .error e => ([mkError e], .errored)
          | .ok amt =>
            let res := genTxLoop r env h (i + 1) rest
            ({ comment := submitMsg h i bs.length amt, methodName := "submit",
               args := bs, ethTx := some tx, error := none } :: res.1, res.2)

/-- The outer loop of `startTxGenerator` over the block hash list, `h` being
the index of the head of `blocks` in the original list (which equals its
height): check the block-level break point, then the start cursor, then
read the block, get its context, emit the begin-block step (or the
empty-block comment when `Skip` is set and the block is empty) and run the
inner loop. -/
def genBlockLoop (r : Replayer) (env : Env) :
    Nat → List Hash → List Tx × GenOutcome
  | _, [] => ([], .closed)
  | h, bh :: rest =>
    if r.breakBlock ≠ 0 ∧ r.breakTx = 0 ∧ h = r.breakBlock then
      ([mkComment (breakBlockMsg h)], .closed)
    else if h < r.startBlock then
      let res := genBlockLoop r env (h + 1) rest
      (mkComment (skipBlockMsg h) :: res.1, res.2)
    else
      match env.db bh h with
      | none => ([mkError (readBlockErrMsg h bh)], .errored)
      | some b =>
        match b.getCtx with
        | .error e => ([mkError e], .errored)
        | .ok ctx =>
          let first := if r.skip = false ∨ 0 < b.transactions.length then
              env.beginBlockTx r.gas ctx
            else mkComment (emptyBlockMsg h)
          let inner := genTxLoop r env h 0 b.transactions
          match inner.2 with
          | .normal =>
            let res := genBlockLoop r env (h + 1) rest
            (first :: inner.1 ++ res.1, res.2)
          | .broke => (first :: inner.1, .closed)
          | .errored => (first :: inner.1, .errored)
          | .panicked => (first :: inner.1, .panicked)

/-- `startTxGenerator` of `replayer.go` as the stream of steps the
goroutine sends on the queue, paired with how the goroutine ends: the
bootstrap step first, then the outer loop over the block list starting at
height 0. -/
def startTxGenerator (r : Replayer) (env : Env) (blocks : List Hash) :
    List Tx × GenOutcome :=
  let res := genBlockLoop r env 0 blocks
  (env.beginChainTx :: res.1, res.2)

/-- Capacity of the queue created by `startTxGenerator`
(`make(chan *Tx, 10*r.BatchSize)`). -/
def queueCap (r : Replayer) : Nat := 10 * r.batchSize

/-- Lexicographic order on (block height, transaction index) pairs. -/
def lexLe (p q : Nat × Nat) : Prop := p.1 < q.1 ∨ (p.1 = q.1 ∧ p.2 ≤ q.2)

instance (p q : Nat × Nat) : Decidable (lexLe p q) := by unfold lexLe; infer_instance

/-- Spec-side step for the (block `h`, transaction `i`) position in a
processed block: a skip comment in the skip-prefix, otherwise the encoded
submission step with gas allotment `Gas / BatchSize`. -/
def expPairStep (r : Replayer) (env : Env) (h i : Nat) (tx : SourceTx) : Tx :=
  if h = r.startBlock ∧ i < r.startTx then mkComment (skipTxMsg i h)
  else
    match tx.rlp with
    | .error e => mkError e
    | .ok bs =>
      match env.fmtNear (r.gas / r.batchSize) with
      | .error e => mkError e
      | .ok amt =>
        { comment := submitMsg h i bs.length amt, methodName := "submit",
          args := bs, ethTx := some tx, error := none }

/-- Spec-side per-position steps of a processed block, from index `i` on. -/
def expTxSteps (r : Replayer) (env : Env) (h : Nat) :
    Nat → List SourceTx → List Tx
  | _, [] => []
  | i, tx :: rest => expPairStep r env h i tx :: expTxSteps r env h (i + 1) rest

/-- Spec-side steps contributed by the block at height `h`: one skip comment
in the skip-prefix region, otherwise a begin-block step (or an empty-block
comment when skipping empty blocks) followed by the per-position steps. -/
def expBlockSteps (r : Replayer) (env : Env) (h : Nat) (b : Block) : List Tx :=
  if h < r.startBlock then [mkComment (skipBlockMsg h)]
  else
    (match b.getCtx with
     | .error e => mkError e
     | .ok ctx =>
        if r.skip = false ∨ 0 < b.transactions.length then env.beginBlockTx r.gas ctx
        else mkComment (emptyBlockMsg h)) :: expTxSteps r env h 0 b.transactions

/-- Spec-side step stream for the resolved blocks `bs`, the head of `bs`
sitting at height `h`, when no break is configured. -/
def expectedSteps (r : Replayer) (env : Env) : Nat → List Block → List Tx
  | _, [] => []
  | h, b :: rest => expBlockSteps r env h b ++ expectedSteps r env (h + 1) rest

/-- The database resolves the hash list `blocks` (whose head sits at height
`h`) to the block list `bs`. -/
def Corr (env : Env) : Nat → List Hash → List Block → Prop
  | _, [], [] => True
  | h, bh :: hs, b :: bs => env.db bh h = some b ∧ Corr env (h + 1) hs bs
  | _, _, _ => False

/-- Every block context extraction succeeds. -/
def CtxOk (bs : List Block) : Prop := ∀ b ∈ bs, ∃ c, b.getCtx = .ok c

/-- Every transaction of every block marshals successfully. -/
def RlpOk (bs : List Block) : Prop :=
  ∀ b ∈ bs, ∀ tx ∈ b.transactions, ∃ x, tx.rlp = .ok x

lemma genTxLoop_noBreak (r : Replayer) (env : Env) (h : Nat)
    (hnb : r.breakBlock = 0 ∨ h ≠ r.breakBlock) (hbs : r.batchSize ≠ 0)
    (amt : String) (hfmt : env.fmtNear (r.gas / r.batchSize) = .ok amt) :
    ∀ txs, (∀ tx ∈ txs, ∃ x, tx.rlp = .ok x) →
      ∀ i, genTxLoop r env h i txs = (expTxSteps r env h i txs, .normal) := by
  intro txs
  induction txs with
  | nil => intro _ i; simp [genTxLoop, expTxSteps]
  | cons tx rest ih =>
    intro hrlp i
    have hbreak : ¬(r.breakBlock ≠ 0 ∧ h = r.breakBlock ∧ i = r.breakTx) := by
      rcases hnb with h0 | hne
      · simp [h0]
      · intro hc; exact hne hc.2.1
    obtain ⟨x, hx⟩ := hrlp tx (List.mem_cons_self tx rest)
    have ihr := ih (fun t ht => hrlp t (List.mem_cons_of_mem tx ht)) (i + 1)
    simp only [genTxLoop, expTxSteps]
    rw [if_neg hbreak]
    by_cases hskip : h = r.startBlock ∧ i < r.startTx
    · obtain ⟨heq, hlt⟩ := hskip
      rw [if_pos ⟨heq, hlt⟩]
      subst heq
      simp [expPairStep, hlt, ihr]
    · rw [if_neg hskip]
      simp [expPairStep, hskip, hx, hbs, hfmt, ihr]

lemma genBlockLoop_noBreak (r : Replayer) (env : Env)
    (hnb : r.breakBlock = 0) (hbs : r.batchSize ≠ 0)
    (amt : String) (hfmt : env.fmtNear (r.gas / r.batchSize) = .ok amt) :
    ∀ blocks bs h0, Corr env h0 blocks bs → CtxOk bs → RlpOk bs →
      genBlockLoop r env h0 blocks = (expectedSteps r env h0 bs, .closed) := by
  intro blocks
  induction blocks with
  | nil =>
    intro bs h0 hc _ _
    cases bs with
    | nil => simp [genBlockLoop, expectedSteps]
    | cons b bs2 => exact absurd hc (by simp [Corr])
  | cons bh rest ih =>
    intro bs h0 hc hctx hrlp
    cases bs with
    | nil => exact absurd hc (by simp [Corr])
    | cons b bs2 =>
      obtain ⟨hdb, hc2⟩ := hc
      have hbreak : ¬(r.breakBlock ≠ 0 ∧ r.breakTx = 0 ∧ h0 = r.breakBlock) := by
        simp [hnb]
      obtain ⟨c, hcx⟩ := hctx b (List.mem_cons_self b bs2)
      have hctx2 : CtxOk bs2 := fun b2 hb => hctx b2 (List.mem_cons_of_mem b hb)
      have hrlp2 : RlpOk bs2 := fun b2 hb => hrlp b2 (List.mem_cons_of_mem b hb)
      have ihr := ih bs2 (h0 + 1) hc2 hctx2 hrlp2
      by_cases hsk : h0 < r.startBlock
      · simp [genBlockLoop, expectedSteps, expBlockSteps, hbreak, hsk, ihr]
      · have hinner := genTxLoop_noBreak r env h0 (Or.inl hnb) hbs amt hfmt
          b.transactions (hrlp b (List.mem_cons_self b bs2)) 0
        simp [genBlockLoop, expectedSteps, expBlockSteps, hbreak, hsk, hdb, hcx,
          hinner, ihr]

/-- Claim C3: with no break configured, the generated stream is the
bootstrap step followed by the expected per-block steps, and, in the
expected stream, a block in the skip-prefix contributes a single Comment
step, a position (h, i) in a processed block with (h, i) lexicographically
before (startBlock, startTx) contributes a skip Comment step, and every
position at or after (startBlock, startTx) contributes a Submission
step. -/
theorem generator_startCursor (r : Replayer) (env : Env) (blocks : List Hash)
    (bs : List Block) (amt : String)
    (hnb : r.breakBlock = 0) (hN : r.batchSize ≠ 0)
    (hfmt : env.fmtNear (r.gas / r.batchSize) = .ok amt)
    (hcorr : Corr env 0 blocks bs) (hctx : CtxOk bs) (hrlp : RlpOk bs) :
    startTxGenerator r env blocks =
      (env.beginChainTx :: expectedSteps r env 0 bs, .closed) ∧
    (∀ h b, h < r.startBlock →
      expBlockSteps r env h b = [mkComment (skipBlockMsg h)]) ∧
    (∀ h i tx, r.startBlock ≤ h → ¬lexLe (r.startBlock, r.startTx) (h, i) →
      expPairStep r env h i tx = mkComment (skipTxMsg i h)) ∧
    (∀ h i tx x, r.startBlock ≤ h → lexLe (r.startBlock, r.startTx) (h, i) →
      tx.rlp = .ok x →
      expPairStep r env h i tx =
        { comment := submitMsg h i x.length amt, methodName := "submit",
          args := x, ethTx := some tx, error := none }) := by
  refine ⟨?_, ?_, ?_, ?_⟩
  · have := genBlockLoop_noBreak r env hnb hN amt hfmt blocks bs 0 hcorr hctx hrlp
    simp [startTxGenerator, this]
  · intro h b hlt
    simp [expBlockSteps, hlt]
  · intro h i tx hle hnlex
    unfold lexLe at hnlex
    push_neg at hnlex
    obtain ⟨ha, hb⟩ := hnlex
    have h1 : h = r.startBlock := le_antisymm (not_lt.mp (by simpa using ha)) hle
    have h2 : i < r.startTx := by
      have := hb h1.symm
      omega
    simp [expPairStep, h1, h2]
  · intro h i tx x hle hlex hx
    have hns : ¬(h = r.startBlock ∧ i < r.startTx) := by
      rintro ⟨he, hi⟩
      unfold lexLe at hlex
      rcases hlex with hl | ⟨_, hr⟩
      · omega
      · omega
    simp [expPairStep, hns, hx, hfmt]

/-- Concrete transactions for the generator witnesses. -/
def t30 : SourceTx := ⟨0, 1, 2, none, 0, [], .ok [1]⟩

/-- Concrete transaction for the generator witnesses. -/
def t31 : SourceTx := ⟨1, 1, 2, some [7], 5, [8], .ok [2, 3]⟩

/-- Concrete transaction for the generator witnesses. -/
def t32 : SourceTx := ⟨2, 1, 2, none, 0, [], .ok [4]⟩

/-- Concrete block at height 0 for the generator witnesses. -/
def b30 : Block := ⟨0, [t30], .ok 0⟩

/-- Concrete block at height 1 for the generator witnesses. -/
def b31 : Block := ⟨100, [t31, t32], .ok 1⟩

/-- Concrete environment for the generator witnesses: hash 100 resolves to
`b30` at height 0 and hash 101 to `b31` at height 1. -/
def env3 : Env where
  db := fun bh h =>
    if bh = 100 ∧ h = 0 then some b30
    else if bh = 101 ∧ h = 1 then some b31
    else none
  fmtNear := fun n => .ok (toString n)
  beginChainTx := { methodName := "begin_chain", args := [9] }
  beginBlockTx := fun g c => { methodName := "begin_block", args := [g, c] }

/-- Concrete replayer configuration for the C3 witness: start cursor
(1, 1), no break, batch size 2. -/
def r3 : Replayer := ⟨10, false, false, 2, 1, 1, 0, 0⟩

/-- Witness for C3: on the concrete two-block chain the generator produces
exactly the bootstrap step followed by the expected steps and closes the
queue. -/
theorem generator_startCursor_witness :
    startTxGenerator r3 env3 [100, 101] =
      (env3.beginChainTx :: expectedSteps r3 env3 0 [b30, b31], .closed) :=
  (generator_startCursor r3 env3 [100, 101] [b30, b31] "5" rfl (by decide) rfl
    ⟨by simp [env3], by simp [env3], trivial⟩
    (by intro b hb; simp [List.mem_cons] at hb
        rcases hb with rfl | rfl
        · exact ⟨0, rfl⟩
        · exact ⟨1, rfl⟩)
    (by intro b hb; simp [List.mem_cons] at hb
        rcases hb with rfl | rfl
        · intro tx htx; simp [b30, List.mem_cons] at htx
          subst htx; exact ⟨[1], rfl⟩
        · intro tx htx; simp [b31, List.mem_cons] at htx
          rcases htx with rfl | rfl
          · exact ⟨[2, 3], rfl⟩
          · exact ⟨[4], rfl⟩)).1

/-- Spec-side per-position steps of the break block from index `i` on:
positions before `breakTx` contribute their usual step, and at `breakTx`
a breaking comment ends the stream. -/
def expBreakTxSteps (r : Replayer) (env : Env) (h : Nat) :
    Nat → List SourceTx → List Tx
  | _, [] => []
  | i, tx :: rest =>
    if i = r.breakTx then [mkComment (breakTxMsg i h)]
    else expPairStep r env h i tx :: expBreakTxSteps r env h (i + 1) rest

/-- Spec-side step stream when a break is configured: blocks before
`breakBlock` contribute their usual steps, and at `breakBlock` the stream
ends with a block-level breaking comment (`breakTx = 0`) or with the
begin-block step followed by the per-position steps up to the breaking
comment at `breakTx`. -/
def expectedBreakSteps (r : Replayer) (env : Env) : Nat → List Block → List Tx
  | _, [] => []
  | h, b :: rest =>
    if h = r.breakBlock then
      if r.breakTx = 0 then [mkComment (breakBlockMsg h)]
      else
        (match b.getCtx with
         | .error e => mkError e
         | .ok ctx =>
            if r.skip = false ∨ 0 < b.transactions.length then
              env.beginBlockTx r.gas ctx
            else mkComment (emptyBlockMsg h)) ::
          expBreakTxSteps r env h 0 b.transactions
    else expBlockSteps r env h b ++ expectedBreakSteps r env (h + 1) rest

/-- The comment text emitted at the break point. -/
def breakStepMsg (r : Replayer) : String :=
  if r.breakTx = 0 then breakBlockMsg r.breakBlock
  else breakTxMsg r.breakTx r.breakBlock

lemma genTxLoop_break (r : Replayer) (env : Env)
    (hb0 : r.breakBlock ≠ 0) (hbs : r.batchSize ≠ 0)
    (amt : String) (hfmt : env.fmtNear (r.gas / r.batchSize) = .ok amt) :
    ∀ txs i, i ≤ r.breakTx → r.breakTx - i < txs.length →
      (∀ tx ∈ txs, ∃ x, tx.rlp = .ok x) →
      genTxLoop r env r.breakBlock i txs =
        (expBreakTxSteps r env r.breakBlock i txs, .broke) := by
  intro txs
  induction txs with
  | nil => intro i _ h2 _; exact absurd h2 (by simp)
  | cons tx rest ih =>
    intro i hi hlen hrlp
    by_cases heq : i = r.breakTx
    · subst heq
      simp [genTxLoop, expBreakTxSteps, hb0]
    · have hbreak : ¬(r.breakBlock ≠ 0 ∧ i = r.breakTx) :=
        fun hc => heq hc.2
      obtain ⟨x, hx⟩ := hrlp tx (List.mem_cons_self tx rest)
      have ihr := ih (i + 1) (by omega)
        (by simp only [List.length_cons] at hlen; omega)
        (fun t ht => hrlp t (List.mem_cons_of_mem tx ht))
      simp only [genTxLoop, expBreakTxSteps, eq_self_iff_true, true_and]
      rw [if_neg hbreak, if_neg heq]
      by_cases hskip : r.breakBlock = r.startBlock ∧ i < r.startTx
      · rw [if_pos hskip]
        have hps : expPairStep r env r.breakBlock i tx =
            mkComment (skipTxMsg i r.breakBlock) := by
          simp [expPairStep, hskip]
        simp [hps, ihr]
      · rw [if_neg hskip]
        have hps : expPairStep r env r.breakBlock i tx =
            { comment := submitMsg r.breakBlock i x.length amt,
              methodName := "submit", args := x, ethTx := some tx,
              error := none } := by
          simp [expPairStep, hskip, hx, hfmt]
        simp [hx, hbs, hfmt, hps, ihr]

lemma genBlockLoop_break (r : Replayer) (env : Env)
    (hb0 : r.breakBlock ≠ 0) (hbs : r.batchSize ≠ 0)
    (amt : String) (hfmt : env.fmtNear (r.gas / r.batchSize) = .ok amt)
    (hsb : r.breakTx ≠ 0 → r.startBlock ≤ r.breakBlock) :
    ∀ blocks bs h0, Corr env h0 blocks bs → CtxOk bs → RlpOk bs →
      h0 ≤ r.breakBlock →
      (bs[r.breakBlock - h0]?).isSome →
      (∀ bb, bs[r.breakBlock - h0]? = some bb → r.breakTx ≠ 0 →
        r.breakTx < bb.transactions.length) →
      genBlockLoop r env h0 blocks = (expectedBreakSteps r env h0 bs, .closed) := by
  intro blocks
  induction blocks with
  | nil =>
    intro bs h0 hc _ _ _ hsome _
    cases bs with
    | nil => simp at hsome
    | cons b bs2 => exact absurd hc (by simp [Corr])
  | cons bh rest ih =>
    intro bs h0 hc hctx hrlp hle hsome htxlen
    cases bs with
    | nil => exact absurd hc (by simp [Corr])
    | cons b bs2 =>
      obtain ⟨hdb, hc2⟩ := hc
      have hctx2 : CtxOk bs2 := fun b2 hb => hctx b2 (List.mem_cons_of_mem b hb)
      have hrlp2 : RlpOk bs2 := fun b2 hb => hrlp b2 (List.mem_cons_of_mem b hb)
      by_cases hbeq : h0 = r.breakBlock
      · subst hbeq
        by_cases hbt : r.breakTx = 0
        · simp [genBlockLoop, expectedBreakSteps, hb0, hbt]
        · have hsk : ¬(r.breakBlock < r.startBlock) := not_lt.mpr (hsb hbt)
          obtain ⟨c, hcx⟩ := hctx b (List.mem_cons_self b bs2)
          have hlen : r.breakTx < b.transactions.length :=
            htxlen b (by simp [Nat.sub_self]) hbt
          have hinner := genTxLoop_break r env hb0 hbs amt hfmt
            b.transactions 0 (Nat.zero_le _) (by omega)
            (hrlp b (List.mem_cons_self b bs2))
          simp [genBlockLoop, expectedBreakSteps, hbt, hsk, hdb, hcx,
            hinner]
      · have hlt : h0 < r.breakBlock := lt_of_le_of_ne hle hbeq
        have hidx : r.breakBlock - h0 = (r.breakBlock - (h0 + 1)) + 1 := by
          omega
        have hsome2 : (bs2[r.breakBlock - (h0 + 1)]?).isSome := by
          rw [hidx] at hsome; simpa using hsome
        have htxlen2 : ∀ bb, bs2[r.breakBlock - (h0 + 1)]? = some bb →
            r.breakTx ≠ 0 → r.breakTx < bb.transactions.length := by
          intro bb hbb hbt
          exact htxlen bb (by rw [hidx]; simpa using hbb) hbt
        have ihr := ih bs2 (h0 + 1) hc2 hctx2 hrlp2 (by omega) hsome2 htxlen2
        by_cases hsk : h0 < r.startBlock
        · simp [genBlockLoop, expectedBreakSteps, hbeq, hsk, ihr,
            expBlockSteps]
        · obtain ⟨c, hcx⟩ := hctx b (List.mem_cons_self b bs2)
          have hinner := genTxLoop_noBreak r env h0 (Or.inr hbeq) hbs amt hfmt
            b.transactions (hrlp b (List.mem_cons_self b bs2)) 0
          simp [genBlockLoop, expectedBreakSteps, hbeq, hsk, hdb, hcx,
            hinner, ihr, expBlockSteps]

lemma expBreakTxSteps_ends (r : Replayer) (env : Env) (h : Nat) :
    ∀ txs i, i ≤ r.breakTx → r.breakTx - i < txs.length →
      ∃ p, expBreakTxSteps r env h i txs =
        p ++ [mkComment (breakTxMsg r.breakTx h)] := by
  intro txs
  induction txs with
  | nil => intro i _ h2; exact absurd h2 (by simp)
  | cons tx rest ih =>
    intro i hi hlen
    by_cases heq : i = r.breakTx
    · subst heq
      exact ⟨[], by simp [expBreakTxSteps]⟩
    · obtain ⟨p, hp⟩ := ih (i + 1) (by omega)
        (by simp only [List.length_cons] at hlen; omega)
      exact ⟨expPairStep r env h i tx :: p,
        by simp [expBreakTxSteps, heq, hp]⟩

lemma expectedBreakSteps_ends (r : Replayer) (env : Env) :
    ∀ bs h0, h0 ≤ r.breakBlock →
      (bs[r.breakBlock - h0]?).isSome →
      (∀ bb, bs[r.breakBlock - h0]? = some bb → r.breakTx ≠ 0 →
        r.breakTx < bb.transactions.length) →
      ∃ p, expectedBreakSteps r env h0 bs =
        p ++ [mkComment (breakStepMsg r)] := by
  intro bs
  induction bs with
  | nil => intro h0 _ hsome _; simp at hsome
  | cons b bs2 ih =>
    intro h0 hle hsome htxlen
    by_cases hbeq : h0 = r.breakBlock
    · subst hbeq
      by_cases hbt : r.breakTx = 0
      · exact ⟨[], by simp [expectedBreakSteps, hbt, breakStepMsg]⟩
      · have hlen : r.breakTx < b.transactions.length :=
          htxlen b (by simp [Nat.sub_self]) hbt
        obtain ⟨p, hp⟩ := expBreakTxSteps_ends r env r.breakBlock
          b.transactions 0 (Nat.zero_le _) (by omega)
        refine ⟨(match b.getCtx with
          | .error e => mkError e
          | .ok ctx =>
            if r.skip = false ∨ 0 < b.transactions.length then
              env.beginBlockTx r.gas ctx
            else mkComment (emptyBlockMsg r.breakBlock)) :: p, ?_⟩
        simp [expectedBreakSteps, hbt, hp, breakStepMsg]
    · have hlt : h0 < r.breakBlock := lt_of_le_of_ne hle hbeq
      have hidx : r.breakBlock - h0 = (r.breakBlock - (h0 + 1)) + 1 := by omega
      have hsome2 : (bs2[r.breakBlock - (h0 + 1)]?).isSome := by
        rw [hidx] at hsome; simpa using hsome
      have htxlen2 : ∀ bb, bs2[r.breakBlock - (h0 + 1)]? = some bb →
          r.breakTx ≠ 0 → r.breakTx < bb.transactions.length := by
        intro bb hbb hbt
        exact htxlen bb (by rw [hidx]; simpa using hbb) hbt
      obtain ⟨p, hp⟩ := ih (h0 + 1) (by omega) hsome2 htxlen2
      exact ⟨expBlockSteps r env h0 b ++ p,
        by simp [expectedBreakSteps, hbeq, hp]⟩

/-- Claim C2 (amended): for a break configuration with `breakBlock` nonzero
whose break point is reachable — `breakBlock` is within the block list,
and if `breakTx` is nonzero then block `breakBlock` lies in the active
region (`startBlock ≤ breakBlock`) and has more than `breakTx`
transactions — the generated stream consists of exactly the steps for
positions strictly before the break point followed by one breaking
Comment, and the queue is closed there; in particular no Submission step
at or after the break point is emitted and at the exact break point a
Comment is emitted and the stream terminates. -/
theorem generator_breakPoint_amended (r : Replayer) (env : Env)
    (blocks : List Hash) (bs : List Block) (amt : String)
    (hb0 : r.breakBlock ≠ 0) (hN : r.batchSize ≠ 0)
    (hfmt : env.fmtNear (r.gas / r.batchSize) = .ok amt)
    (hcorr : Corr env 0 blocks bs) (hctx : CtxOk bs) (hrlp : RlpOk bs)
    (hsome : (bs[r.breakBlock]?).isSome)
    (htxlen : ∀ bb, bs[r.breakBlock]? = some bb → r.breakTx ≠ 0 →
      r.breakTx < bb.transactions.length)
    (hsb : r.breakTx ≠ 0 → r.startBlock ≤ r.breakBlock) :
    startTxGenerator r env blocks =
      (env.beginChainTx :: expectedBreakSteps r env 0 bs, .closed) ∧
    ∃ p, env.beginChainTx :: expectedBreakSteps r env 0 bs =
      p ++ [mkComment (breakStepMsg r)] := by
  constructor
  · have := genBlockLoop_break r env hb0 hN amt hfmt hsb blocks bs 0 hcorr
      hctx hrlp (Nat.zero_le _) (by simpa using hsome) (by simpa using htxlen)
    simp [startTxGenerator, this]
  · obtain ⟨p, hp⟩ := expectedBreakSteps_ends r env bs 0 (Nat.zero_le _)
      (by simpa using hsome) (by simpa using htxlen)
    exact ⟨env.beginChainTx :: p, by simp [hp]⟩

/-- Replayer configuration refuting C2 as stated: break point (1, 1),
no start cursor, batch size 2. -/
def r2c : Replayer := ⟨10, false, false, 2, 0, 0, 1, 1⟩

/-- Block at height 0 for the C2 counterexample (no transactions). -/
def b2c0 : Block := ⟨0, [], .ok 0⟩

/-- Block at height 1 for the C2 counterexample: it has no transactions,
so the generator's inner loop never reaches transaction index 1 and the
break never fires. -/
def b2c1 : Block := ⟨200, [], .ok 1⟩

/-- Block at height 2 for the C2 counterexample: one transaction, which
lies after the break point (1, 1) in lexicographic order. -/
def b2c2 : Block := ⟨201, [t30], .ok 2⟩

/-- Environment for the C2 counterexample. -/
def env2c : Env where
  db := fun bh h =>
    if bh = 200 ∧ h = 0 then some b2c0
    else if bh = 201 ∧ h = 1 then some b2c1
    else if bh = 202 ∧ h = 2 then some b2c2
    else none
  fmtNear := fun n => .ok (toString n)
  beginChainTx := { methodName := "begin_chain", args := [9] }
  beginBlockTx := fun g c => { methodName := "begin_block", args := [g, c] }

/-- Counterexample to C2 as stated: with break configuration (1, 1)
(`breakBlock` nonzero) on a chain whose block 1 has no transactions, the
stream still contains a Submission step (method "submit", args `[1]`, the
encoding of block 2's transaction 0) at position (2, 0), which is at or
after the break point (1, 1); the stream did not terminate at or before
the break point. -/
theorem generator_breakPoint_cex :
    r2c.breakBlock = 1 ∧ r2c.breakTx = 1 ∧ lexLe (1, 1) (2, 0) ∧
    ∃ t ∈ (startTxGenerator r2c env2c [200, 201, 202]).1,
      t.methodName = "submit" ∧ t.args = [1] := by
  refine ⟨rfl, rfl, by decide, ?_⟩
  decide

/-- Replayer configuration for the C2 witness: break point (1, 1)
reachable on the witness chain (block 1 has two transactions). -/
def r2w : Replayer := ⟨10, false, false, 2, 0, 0, 1, 1⟩

/-- Witness for the amended C2: on the concrete two-block chain whose
block 1 has two transactions, the generator emits exactly the pre-break
steps followed by the breaking comment and closes the queue. -/
theorem generator_breakPoint_amended_witness :
    startTxGenerator r2w env3 [100, 101] =
      (env3.beginChainTx :: expectedBreakSteps r2w env3 0 [b30, b31],
        .closed) :=
  (generator_breakPoint_amended r2w env3 [100, 101] [b30, b31] "5"
    (by decide) (by decide) rfl
    ⟨by simp [env3], by simp [env3], trivial⟩
    (by intro b hb; simp [List.mem_cons] at hb
        rcases hb with rfl | rfl
        · exact ⟨0, rfl⟩
        · exact ⟨1, rfl⟩)
    (by intro b hb; simp [List.mem_cons] at hb
        rcases hb with rfl | rfl
        · intro tx htx; simp [b30, List.mem_cons] at htx
          subst htx; exact ⟨[1], rfl⟩
        · intro tx htx; simp [b31, List.mem_cons] at htx
          rcases htx with rfl | rfl
          · exact ⟨[2, 3], rfl⟩
          · exact ⟨[4], rfl⟩)
    rfl
    (by intro bb hbb _
        rw [show ([b30, b31][r2w.breakBlock]?) = some b31 from rfl] at hbb
        cases hbb
        decide)
    (fun _ => Nat.zero_le _)).1

/-- Claim C9: the generator requires a positive `BatchSize` even when
batching is disabled: the queue is created with capacity `10 * BatchSize`
(so 0 when `BatchSize = 0`, an unbuffered channel), and when the generator
reaches a source transaction in the active window (not broken at, not
skipped, marshalling fine) with `BatchSize = 0`, the division
`Gas / uint64(BatchSize)` panics: the stream ends in the `panicked`
outcome with no further step and in particular no Error step. -/
theorem generator_batchSizeZero_panics (r : Replayer) (env : Env)
    (h0 : r.batchSize = 0) :
    queueCap r = 0 ∧
    (∀ h i tx bs rest,
      ¬(r.breakBlock ≠ 0 ∧ h = r.breakBlock ∧ i = r.breakTx) →
      ¬(h = r.startBlock ∧ i < r.startTx) →
      tx.rlp = .ok bs →
      genTxLoop r env h i (tx :: rest) = ([], .panicked)) := by
  constructor
  · simp [queueCap, h0]
  · intro h i tx bs rest hbr hsk hx
    simp only [genTxLoop]
    rw [if_neg hbr, if_neg hsk]
    simp [hx, h0]

/-- Replayer configuration with `BatchSize = 0` for the C9 witness. -/
def r9 : Replayer := ⟨10, false, false, 0, 0, 0, 0, 0⟩

/-- Witness for C9: with `BatchSize = 0` the queue capacity is 0 and the
generator's inner loop panics at the first active transaction instead of
emitting an error step. -/
theorem generator_batchSizeZero_panics_witness :
    queueCap r9 = 0 ∧ genTxLoop r9 env3 0 0 [t30] = ([], .panicked) :=
  ⟨(generator_batchSizeZero_panics r9 env3 rfl).1,
   (generator_batchSizeZero_panics r9 env3 rfl).2 0 0 t30 [1] []
     (by decide) (by decide) rfl⟩

/-- A decoded JSON value as Go's `interface{}` from `encoding/json`: null,
string, number, or a string-keyed object.  (Arrays never reach the code
paths modelled here and are omitted; any value that is not a string-keyed
map fails the type assertions below alike.) -/
inductive GoVal where
  | null
  | str (s : String)
  | num (n : Int)
  | obj (m : List (String × GoVal))

/-- A string-keyed JSON object (`map[string]interface{}`). -/
abbrev GoMap := List (String × GoVal)

/-- Go map indexing: a missing key yields `nil` (`null`). -/
def lookupGo (m : GoMap) (k : String) : GoVal :=
  match m.find? (fun p => p.1 == k) with
  | some p => p.2
  | none => .null

/-- Observable console output of the result verifier, abstracted to
structured events. -/
inductive OutEvent where
  | transactionId (s : String)
  | statusJson (status : GoMap)
  | rlpHex (bs : Bytes)
  | nonce (n : Nat)
  | gasPrice (p : Nat)
  | gasLimit (g : Nat)
  | toAddr (a : Bytes)
  | contractCreation
  | value (v : Nat)
  | dataHex (bs : Bytes)

/-- `showTx` of `replayer.go`: print the re-marshalled transaction and its
decoded fields (recipient or "contract creation"; the payload hex only
when non-empty).  A marshalling failure panics (`none`); the caller
marshalled the transaction before. -/
def showTx (tx : SourceTx) : Option (List OutEvent) :=
  match tx.rlp with
  | .error _ => none
  | .ok bs =>
    some ([OutEvent.rlpHex bs, OutEvent.nonce tx.nonce,
           OutEvent.gasPrice tx.gasPrice, OutEvent.gasLimit tx.gasLimit] ++
      (match tx.toAddr with
       | some a => [OutEvent.toAddr a]
       | none => [OutEvent.contractCreation]) ++
      [OutEvent.value tx.value] ++
      (if 0 < tx.data.length then [OutEvent.dataHex tx.data] else []))

/-- `getTxnId` of the NEAR API helpers: the "hash" string of the
"transaction" object, or the empty string when either is missing or of a
different shape (checked type assertions, no panic). -/
def getTxnId (res : GoMap) : String :=
  match lookupGo res "transaction" with
  | .obj t =>
    match lookupGo t "hash" with
    | .str h => h
    | _ => ""
  | _ => ""

/-- `PrettyPrintResponse` of the NEAR API helpers: print the transaction
identifier when present. -/
def prettyPrintResponse (res : GoMap) : List OutEvent :=
  if getTxnId res ≠ "" then [OutEvent.transactionId (getTxnId res)] else []

/-- Result of the verifier: a Go runtime panic, a `SubmissionFailed` error
("replayer: transaction failed") with the produced output, or normal
return with the produced output. -/
inductive ProcResult where
  | panicked
  | failed (out : List OutEvent)
  | ok (out : List OutEvent)

/-- `procTxResult` of `replayer.go`: print the response summary, then
unconditionally type-assert `txResult["status"]` as a string-keyed map
(panicking otherwise), print the status, and fail when the status holds a
non-nil "Failure" key — in that case, when not in batch mode and a source
transaction back-reference is available, print its decoded fields
first. -/
def procTxResult (batch : Bool) (tx : Option SourceTx) (txResult : GoMap) :
    ProcResult :=
  let out1 := prettyPrintResponse txResult
  match lookupGo txResult "status" with
  | .obj status =>
    let out2 := out1 ++ [OutEvent.statusJson status]
    match lookupGo status "Failure" with
    | .null => .ok out2
    | _ =>
      match batch, tx with
      | false, some t =>
        match showTx t with
        | none => .panicked
        | some o3 => .failed (out2 ++ o3)
      | _, _ => .failed out2
  | _ => .panicked

/-- Claim C6: when the response payload's "status" entry is a map, the
verifier fails (with the `SubmissionFailed` error) exactly when that
status holds a non-nil "Failure" entry; on failure it prints the full
status and — when batch mode is off and a source transaction
back-reference is available — the decoded transaction details produced by
`showTx`; on success it returns normally with the status printed, and in
either case the transaction identifier is printed when present. -/
theorem resultVerifier_procTxResult (batch : Bool) (tx : Option SourceTx)
    (txResult status : GoMap)
    (hstat : lookupGo txResult "status" = GoVal.obj status)
    (hshow : ∀ t, tx = some t → ∃ x, t.rlp = .ok x) :
    ((∃ out, procTxResult batch tx txResult = .failed out) ↔
      lookupGo status "Failure" ≠ GoVal.null) ∧
    (lookupGo status "Failure" = GoVal.null →
      procTxResult batch tx txResult =
        .ok (prettyPrintResponse txResult ++ [OutEvent.statusJson status])) ∧
    (lookupGo status "Failure" ≠ GoVal.null →
      (∀ t, batch = false → tx = some t →
        ∃ o3, showTx t = some o3 ∧
          procTxResult batch tx txResult =
            .failed (prettyPrintResponse txResult ++
              [OutEvent.statusJson status] ++ o3)) ∧
      ((batch = true ∨ tx = none) →
        procTxResult batch tx txResult =
          .failed (prettyPrintResponse txResult ++
            [OutEvent.statusJson status]))) ∧
    (getTxnId txResult ≠ "" →
      OutEvent.transactionId (getTxnId txResult) ∈
        prettyPrintResponse txResult) := by
  have hfail : lookupGo status "Failure" ≠ GoVal.null →
      (∀ t, batch = false → tx = some t →
        ∃ o3, showTx t = some o3 ∧
          procTxResult batch tx txResult =
            .failed (prettyPrintResponse txResult ++
              [OutEvent.statusJson status] ++ o3)) ∧
      ((batch = true ∨ tx = none) →
        procTxResult batch tx txResult =
          .failed (prettyPrintResponse txResult ++
            [OutEvent.statusJson status])) := by
    intro hne
    constructor
    · intro t hb ht
      subst hb
      subst ht
      obtain ⟨x, hx⟩ := hshow t rfl
      have hst : showTx t = some ([OutEvent.rlpHex x, OutEvent.nonce t.nonce,
          OutEvent.gasPrice t.gasPrice, OutEvent.gasLimit t.gasLimit] ++
        (match t.toAddr with
         | some a => [OutEvent.toAddr a]
         | none => [OutEvent.contractCreation]) ++
        [OutEvent.value t.value] ++
        (if 0 < t.data.length then [OutEvent.dataHex t.data] else [])) := by
        simp [showTx, hx]
      refine ⟨_, hst, ?_⟩
      simp only [procTxResult, hstat]
      cases hF : lookupGo status "Failure" with
      | null => exact absurd hF hne
      | str s => simp [hF, hst]
      | num n => simp [hF, hst]
      | obj m => simp [hF, hst]
    · intro hcase
      simp only [procTxResult, hstat]
      cases hF : lookupGo status "Failure" with
      | null => exact absurd hF hne
      | str s =>
        rcases hcase with hb | ht
        · subst hb; cases tx <;> simp [hF]
        · subst ht; cases batch <;> simp [hF]
      | num n =>
        rcases hcase with hb | ht
        · subst hb; cases tx <;> simp [hF]
        · subst ht; cases batch <;> simp [hF]
      | obj m =>
        rcases hcase with hb | ht
        · subst hb; cases tx <;> simp [hF]
        · subst ht; cases batch <;> simp [hF]
  have hok : lookupGo status "Failure" = GoVal.null →
      procTxResult batch tx txResult =
        .ok (prettyPrintResponse txResult ++ [OutEvent.statusJson status]) := by
    intro hnull
    simp [procTxResult, hstat, hnull]
  refine ⟨?_, hok, hfail, ?_⟩
  · constructor
    · rintro ⟨out, hout⟩ hnull
      rw [hok hnull] at hout
      exact ProcResult.noConfusion hout
    · intro hne
      by_cases hb : batch = false ∧ ∃ t, tx = some t
      · obtain ⟨hbf, t, ht⟩ := hb
        obtain ⟨o3, _, hres⟩ := (hfail hne).1 t hbf ht
        exact ⟨_, hres⟩
      · have hcase : batch = true ∨ tx = none := by
          by_cases hbt : batch = true
          · exact Or.inl hbt
          · right
            cases htx : tx with
            | none => rfl
            | some t =>
              exact absurd ⟨by revert hbt; cases batch <;> simp, t, htx⟩ hb
        exact ⟨_, (hfail hne).2 hcase⟩
  · intro hne
    simp [prettyPrintResponse, hne]

/-- Failure response payload for the C6 witness. -/
def failRes : GoMap :=
  [("transaction", .obj [("hash", .str "abc")]),
   ("status", .obj [("Failure", .obj [("msg", .str "boom")])])]

/-- Witness for C6: on a concrete failing payload with a source transaction
back-reference in single-call mode, the verifier fails and prints the
status and the decoded transaction details. -/
theorem resultVerifier_procTxResult_witness :
    ∃ o3, showTx t31 = some o3 ∧
      procTxResult false (some t31) failRes =
        .failed (prettyPrintResponse failRes ++
          [OutEvent.statusJson [("Failure", .obj [("msg", .str "boom")])]] ++
          o3) :=
  ((resultVerifier_procTxResult false (some t31) failRes
      [("Failure", .obj [("msg", .str "boom")])] rfl
      (fun t ht => by cases ht; exact ⟨[2, 3], rfl⟩)).2.2.1
    (fun h => GoVal.noConfusion h)).1 t31 rfl rfl

/-- Claim C10: `procTxResult` unconditionally type-asserts that the
response payload holds a "status" key whose value is a string-keyed map;
on any payload where that entry is missing or of a different shape it
panics instead of returning an error. -/
theorem resultVerifier_statusAssert_panics (batch : Bool)
    (tx : Option SourceTx) (txResult : GoMap)
    (hnot : ∀ s, lookupGo txResult "status" ≠ GoVal.obj s) :
    procTxResult batch tx txResult = .panicked := by
  cases hs : lookupGo txResult "status" with
  | null => simp [procTxResult, hs]
  | str s => simp [procTxResult, hs]
  | num n => simp [procTxResult, hs]
  | obj m => exact absurd hs (hnot m)

/-- Witness for C10: on the empty payload (no "status" key) the verifier
panics. -/
theorem resultVerifier_statusAssert_panics_witness :
    procTxResult true none [] = .panicked :=
  resultVerifier_statusAssert_panics true none []
    (fun _ h => GoVal.noConfusion h)

/-- A pending NEAR action (`near.Action` with `Enum = 2`: its
`FunctionCall` payload — method name, args, gas, attached deposit). -/
structure Action where
  methodName : String
  args : Bytes
  gas : Nat
  deposit : Nat

/-- The physical calls issued by the consumer: single `FunctionCall`s and
batched `SignAndSendTransaction`s, each batch a list of actions. -/
structure Trace where
  singles : List Action
  batches : List (List Action)

/-- Concatenation of call traces. -/
def Trace.app (t u : Trace) : Trace :=
  ⟨t.singles ++ u.singles, t.batches ++ u.batches⟩

/-- How a `Replay` run ends: normal return, an error return, or a Go
runtime panic. -/
inductive RunOut where
  | ok
  | err (e : String)
  | panicked

/-- Result of draining a list of steps: either the whole list was
consumed (`done`, with the calls made, the in-progress batch and the next
response index) or the loop returned early (`stopped`). -/
inductive LoopRes where
  | done (tr : Trace) (batch : List Action) (k : Nat)
  | stopped (tr : Trace) (out : RunOut)

/-- Prepend the calls `t` made by one step to the result of the rest of
the loop. -/
def prependTrace (t : Trace) : LoopRes → LoopRes
  | .done tr b k => .done (t.app tr) b k
  | .stopped tr o => .stopped (t.app tr) o

/-- Result of processing one step: continue with updated batch and
response index, or return early. -/
inductive StepRes where
  | cont (t : Trace) (batch : List Action) (k : Nat)
  | halt (t : Trace) (out : RunOut)

/-- One iteration of the consumer loop of `Replay` on step `tx` with the
current in-progress `batch`, `k` being the index of the next response of
the oracle `resp` (the results of `FunctionCall` /
`SignAndSendTransaction` in call order): an Error step aborts; a comment
only prints; a submission is either sent immediately (no batching,
configured gas, zero deposit) or appended to the batch with gas
`Gas / uint64(BatchSize)` (a Go panic when `BatchSize = 0`) and the batch
is sent when full; every issued call's response goes through
`procTxResult`. -/
def replayStep (r : Replayer) (resp : Nat → Except String GoMap) (tx : Tx)
    (batch : List Action) (k : Nat) : StepRes :=
  match tx.error with
  | some e => .halt ⟨[], []⟩ (.err e)
  | none =>
    if tx.methodName = "" then .cont ⟨[], []⟩ batch k
    else if r.batch then
      if r.batchSize = 0 then .halt ⟨[], []⟩ .panicked
      else
        let act : Action := ⟨tx.methodName, tx.args, r.gas / r.batchSize, 0⟩
        let batch2 := batch ++ [act]
        if batch2.length = r.batchSize then
          match resp k with
          | .error e => .halt ⟨[], [batch2]⟩ (.err e)
          | .ok m =>
            match procTxResult r.batch tx.ethTx m with
            | .panicked => .halt ⟨[], [batch2]⟩ .panicked
            | .failed _ =>
              .halt ⟨[], [batch2]⟩ (.err "replayer: transaction failed")
            | .ok _ => .cont ⟨[], [batch2]⟩ [] (k + 1)
        else .cont ⟨[], []⟩ batch2 k
    else
      let act : Action := ⟨tx.methodName, tx.args, r.gas, 0⟩
      match resp k with
      | .error e => .halt ⟨[act], []⟩ (.err e)
      | .ok m =>
        match procTxResult r.batch tx.ethTx m with
        | .panicked => .halt ⟨[act], []⟩ .panicked
        | .failed _ => .halt ⟨[act], []⟩ (.err "replayer: transaction failed")
        | .ok _ => .cont ⟨[act], []⟩ batch (k + 1)

/-- The consumer loop of `Replay` over a list of steps. -/
def replayLoop (r : Replayer) (resp : Nat → Except String GoMap) :
    List Tx → List Action → Nat → LoopRes
  | [], batch, k => .done ⟨[], []⟩ batch k
  | tx :: rest, batch, k =>
    match replayStep r resp tx batch k with
    | .halt t o => .stopped t o
    | .cont t b2 k2 => prependTrace t (replayLoop r resp rest b2 k2)

/-- `Replay` of `replayer.go`, from the point where the step stream is
consumed: drain the steps starting with an empty batch, then, when a
non-empty partial batch remains, send it as the final batch and verify its
response.  Returns the calls issued and how the run ended. -/
def Replay (r : Replayer) (resp : Nat → Except String GoMap)
    (steps : List Tx) : Trace × RunOut :=
  match replayLoop r resp steps [] 0 with
  | .stopped tr o => (tr, o)
  | .done tr batch k =>
    if 0 < batch.length then
      match resp k with
      | .error e => (⟨tr.singles, tr.batches ++ [batch]⟩, .err e)
      | .ok m =>
        match procTxResult r.batch none m with
        | .panicked => (⟨tr.singles, tr.batches ++ [batch]⟩, .panicked)
        | .failed _ =>
          (⟨tr.singles, tr.batches ++ [batch]⟩,
            .err "replayer: transaction failed")
        | .ok _ => (⟨tr.singles, tr.batches ++ [batch]⟩, .ok)
    else (tr, .ok)

/-- A response whose status is a map with a nil "Failure" entry. -/
def statusOk (m : GoMap) : Prop :=
  ∃ s, lookupGo m "status" = GoVal.obj s ∧ lookupGo s "Failure" = GoVal.null

/-- A successful call response: no transport error and a success status. -/
def GoodResp (v : Except String GoMap) : Prop :=
  ∃ m, v = .ok m ∧ statusOk m

lemma procTxResult_of_statusOk (bf : Bool) (tx : Option SourceTx) (m : GoMap)
    (h : statusOk m) : ∃ o, procTxResult bf tx m = .ok o := by
  obtain ⟨s, hs, hf⟩ := h
  exact ⟨prettyPrintResponse m ++ [OutEvent.statusJson s],
    by simp [procTxResult, hs, hf]⟩

@[simp] lemma prependTrace_empty (res : LoopRes) :
    prependTrace ⟨[], []⟩ res = res := by
  cases res <;> simp [prependTrace, Trace.app]

lemma prependTrace_app (t u : Trace) (res : LoopRes) :
    prependTrace t (prependTrace u res) = prependTrace (t.app u) res := by
  cases res <;> simp [prependTrace, Trace.app]

lemma replayStep_progress (r : Replayer) (resp : Nat → Except String GoMap)
    (tx : Tx) (batch : List Action) (k : Nat)
    (herr : tx.error = none) (hresp : GoodResp (resp k))
    (hb : r.batch = true → r.batchSize ≠ 0) :
    ∃ t b2 k2, replayStep r resp tx batch k = .cont t b2 k2 := by
  obtain ⟨m, hm, hst⟩ := hresp
  obtain ⟨o, ho⟩ := procTxResult_of_statusOk r.batch tx.ethTx m hst
  by_cases hmn : tx.methodName = ""
  · exact ⟨⟨[], []⟩, batch, k, by simp [replayStep, herr, hmn]⟩
  · by_cases hbm : r.batch
    · have hbz := hb hbm
      rw [hbm] at ho
      by_cases hfull :
          (batch ++ [(⟨tx.methodName, tx.args, r.gas / r.batchSize, 0⟩ :
            Action)]).length = r.batchSize
      · exact ⟨⟨[], [batch ++
            [⟨tx.methodName, tx.args, r.gas / r.batchSize, 0⟩]]⟩, [], k + 1,
          by simp [replayStep, herr, hmn, hbm, hbz, hfull, hm, ho]⟩
      · exact ⟨⟨[], []⟩,
          batch ++ [⟨tx.methodName, tx.args, r.gas / r.batchSize, 0⟩], k,
          by
            have hfull2 : ¬(batch.length + 1 = r.batchSize) := by
              simpa using hfull
            simp [replayStep, herr, hmn, hbm, hbz, hfull2]⟩
    · have hbf : r.batch = false := by revert hbm; cases r.batch <;> simp
      rw [hbf] at ho
      exact ⟨⟨[⟨tx.methodName, tx.args, r.gas, 0⟩], []⟩, batch, k + 1,
        by simp [replayStep, herr, hmn, hbf, hm, ho]⟩

lemma replayLoop_progress (r : Replayer) (resp : Nat → Except String GoMap)
    (hresp : ∀ k, GoodResp (resp k))
    (hb : r.batch = true → r.batchSize ≠ 0) :
    ∀ steps batch k, (∀ t ∈ steps, t.error = none) →
      ∃ tr b2 k2, replayLoop r resp steps batch k = .done tr b2 k2 := by
  intro steps
  induction steps with
  | nil => intro batch k _; exact ⟨⟨[], []⟩, batch, k, rfl⟩
  | cons tx rest ih =>
    intro batch k herr
    obtain ⟨t, b2, k2, hstep⟩ := replayStep_progress r resp tx batch k
      (herr tx (List.mem_cons_self tx rest)) (hresp k) hb
    obtain ⟨tr, b3, k3, hloop⟩ := ih b2 k2
      (fun u hu => herr u (List.mem_cons_of_mem tx hu))
    exact ⟨t.app tr, b3, k3,
      by simp [replayLoop, hstep, hloop, prependTrace]⟩

lemma replayLoop_append (r : Replayer) (resp : Nat → Except String GoMap) :
    ∀ p tr b2 k2 q b k, replayLoop r resp p b k = .done tr b2 k2 →
      replayLoop r resp (p ++ q) b k =
        prependTrace tr (replayLoop r resp q b2 k2) := by
  intro p
  induction p with
  | nil =>
    intro tr b2 k2 q b k hp
    simp only [replayLoop] at hp
    cases hp
    simp
  | cons tx rest ih =>
    intro tr b2 k2 q b k hp
    cases hstep : replayStep r resp tx b k with
    | halt t o =>
      simp only [replayLoop, hstep] at hp
      exact LoopRes.noConfusion hp
    | cont t bb kk =>
      simp only [replayLoop, hstep] at hp
      cases hrec : replayLoop r resp rest bb kk with
      | stopped tr2 o2 =>
        rw [hrec] at hp
        simp only [prependTrace] at hp
        exact LoopRes.noConfusion hp
      | done tr2 b3 k3 =>
        rw [hrec] at hp
        simp only [prependTrace] at hp
        cases hp
        show replayLoop r resp (tx :: (rest ++ q)) b k = _
        simp only [replayLoop, hstep]
        rw [ih tr2 b2 k2 q bb kk hrec, prependTrace_app]

/-- Claim C5: for every step stream containing an Error step, the
consumer returns the Error step's cause unchanged and processes no step
after it: whatever follows the Error step, the calls issued are exactly
the calls issued for the prefix before it. -/
theorem consumer_errorStep_aborts (r : Replayer)
    (resp : Nat → Except String GoMap) (pre post : List Tx) (errTx : Tx)
    (e : String) (herr : errTx.error = some e)
    (hpre : ∀ t ∈ pre, t.error = none)
    (hresp : ∀ k, GoodResp (resp k))
    (hb : r.batch = true → r.batchSize ≠ 0) :
    ∃ tr b2 k2, replayLoop r resp pre [] 0 = .done tr b2 k2 ∧
      Replay r resp (pre ++ errTx :: post) = (tr, .err e) := by
  obtain ⟨tr, b2, k2, hdone⟩ :=
    replayLoop_progress r resp hresp hb pre [] 0 hpre
  refine ⟨tr, b2, k2, hdone, ?_⟩
  have happ := replayLoop_append r resp pre tr b2 k2 (errTx :: post) [] 0 hdone
  have hstop : replayLoop r resp (errTx :: post) b2 k2 =
      .stopped ⟨[], []⟩ (.err e) := by
    simp [replayLoop, replayStep, herr]
  rw [hstop] at happ
  simp only [prependTrace] at happ
  have htr : tr.app ⟨[], []⟩ = tr := by simp [Trace.app]
  rw [htr] at happ
  simp [Replay, happ]

/-- A successful response payload (empty status object, no failure). -/
def okRes : GoMap := [("status", GoVal.obj [])]

/-- Response oracle that always succeeds. -/
def respOk : Nat → Except String GoMap := fun _ => .ok okRes

/-- A concrete submission step for the consumer witnesses. -/
def subStep : Tx :=
  { comment := "c", methodName := "submit", args := [1], ethTx := some t30,
    error := none }

/-- Replayer configuration for the C5 witness (single-call mode). -/
def r5 : Replayer := ⟨10, false, false, 1, 0, 0, 0, 0⟩

/-- Witness for C5: the error step's cause "E" is returned unchanged and
the post-error submission is never issued. -/
theorem consumer_errorStep_aborts_witness :
    ∃ tr b2 k2, replayLoop r5 respOk [subStep] [] 0 = .done tr b2 k2 ∧
      Replay r5 respOk ([subStep] ++ mkError "E" :: [subStep]) =
        (tr, .err "E") :=
  consumer_errorStep_aborts r5 respOk [subStep] [subStep] (mkError "E") "E"
    rfl
    (by intro t ht; simp [List.mem_cons] at ht; subst ht; rfl)
    (fun _ => ⟨okRes, rfl, [], rfl, rfl⟩)
    (fun _ => by decide)

/-- Number of submission steps in a stream. -/
def countSubs (steps : List Tx) : Nat :=
  (steps.filter (fun t => t.methodName != "")).length

lemma countSubs_nil : countSubs [] = 0 := rfl

lemma countSubs_cons_skip (t : Tx) (rest : List Tx)
    (h : t.methodName = "") : countSubs (t :: rest) = countSubs rest := by
  simp [countSubs, List.filter, h]

lemma countSubs_cons_sub (t : Tx) (rest : List Tx)
    (h : t.methodName ≠ "") :
    countSubs (t :: rest) = countSubs rest + 1 := by
  have hb : (t.methodName != "") = true := by simpa using h
  simp [countSubs, List.filter, hb]

lemma ceilDiv_eq (M N : Nat) (hN : 0 < N) :
    (M + N - 1) / N = M / N + (if M % N = 0 then 0 else 1) := by
  obtain ⟨q, d, hd, rfl⟩ : ∃ q d, d < N ∧ M = N * q + d :=
    ⟨M / N, M % N, Nat.mod_lt _ hN, (Nat.div_add_mod M N).symm⟩
  have hdiv : (N * q + d) / N = q + d / N := Nat.mul_add_div hN q d
  have hmod : (N * q + d) % N = d % N := Nat.mul_add_mod N q d
  have hd2 : d / N = 0 := Nat.div_eq_of_lt hd
  have hd3 : d % N = d := Nat.mod_eq_of_lt hd
  rw [hdiv, hmod, hd3, hd2]
  by_cases h0 : d = 0
  · subst h0
    norm_num
    rcases Nat.eq_zero_or_pos q with hq | hq
    · subst hq
      simp [Nat.div_eq_of_lt (show N - 1 < N by omega)]
    · have hNq : N * q = N * (q - 1) + N := by
        have hq1 : q - 1 + 1 = q := Nat.succ_pred_eq_of_pos hq
        calc N * q = N * (q - 1 + 1) := by rw [hq1]
        _ = N * (q - 1) + N := by ring
      have e : N * q + N - 1 = N * (q - 1) + (N + (N - 1)) := by omega
      rw [e, Nat.mul_add_div hN]
      have h1 : (N + (N - 1)) / N = 1 := by
        rw [Nat.add_div_left _ hN, Nat.div_eq_of_lt (show N - 1 < N by omega)]
      omega
  · simp only [if_neg h0]
    have hNq : N * (q + 1) = N * q + N := by ring
    have e : N * q + d + N - 1 = N * (q + 1) + (d - 1) := by omega
    rw [e, Nat.mul_add_div hN,
      Nat.div_eq_of_lt (show d - 1 < N by omega)]

@[simp] lemma Trace.empty_app (tr : Trace) : Trace.app ⟨[], []⟩ tr = tr := by
  cases tr; simp [Trace.app]

lemma replayLoop_batch_count (r : Replayer) (resp : Nat → Except String GoMap)
    (hbm : r.batch = true) (hN : 0 < r.batchSize)
    (hresp : ∀ k, GoodResp (resp k)) :
    ∀ steps batch k, (∀ t ∈ steps, t.error = none) →
      batch.length < r.batchSize →
      ∃ tr b2 k2, replayLoop r resp steps batch k = .done tr b2 k2 ∧
        tr.singles = [] ∧ (∀ c ∈ tr.batches, c.length = r.batchSize) ∧
        tr.batches.length =
          (batch.length + countSubs steps) / r.batchSize ∧
        b2.length = (batch.length + countSubs steps) % r.batchSize := by
  intro steps
  induction steps with
  | nil =>
    intro batch k _ hlt
    exact ⟨⟨[], []⟩, batch, k, rfl, rfl, by simp,
      by simp [countSubs_nil, Nat.div_eq_of_lt hlt],
      by simp [countSubs_nil, Nat.mod_eq_of_lt hlt]⟩
  | cons t rest ih =>
    intro batch k herr hlt
    have herrt := herr t (List.mem_cons_self t rest)
    have herr2 : ∀ u ∈ rest, u.error = none :=
      fun u hu => herr u (List.mem_cons_of_mem t hu)
    by_cases hmn : t.methodName = ""
    · have hstep : replayStep r resp t batch k = .cont ⟨[], []⟩ batch k := by
        simp [replayStep, herrt, hmn]
      obtain ⟨tr, b2, k2, hloop, h1, h2, h3, h4⟩ := ih batch k herr2 hlt
      refine ⟨tr, b2, k2, ?_, h1, h2, ?_, ?_⟩
      · simp [replayLoop, hstep, hloop, prependTrace]
      · rw [h3, countSubs_cons_skip t rest hmn]
      · rw [h4, countSubs_cons_skip t rest hmn]
    · have hbz : r.batchSize ≠ 0 := by omega
      by_cases hfull : (batch ++
          [(⟨t.methodName, t.args, r.gas / r.batchSize, 0⟩ : Action)]).length
          = r.batchSize
      · obtain ⟨m, hm, hst⟩ := hresp k
        obtain ⟨o, ho⟩ := procTxResult_of_statusOk r.batch t.ethTx m hst
        rw [hbm] at ho
        have hstep : replayStep r resp t batch k =
            .cont ⟨[], [batch ++
              [⟨t.methodName, t.args, r.gas / r.batchSize, 0⟩]]⟩ []
              (k + 1) := by
          simp [replayStep, herrt, hmn, hbm, hbz, hfull, hm, ho]
        obtain ⟨tr, b2, k2, hloop, h1, h2, h3, h4⟩ :=
          ih [] (k + 1) herr2 (by simpa using hN)
        simp only [List.length_nil, Nat.zero_add] at h3 h4
        have hb1 : batch.length + 1 = r.batchSize := by simpa using hfull
        have hcnt : batch.length + countSubs (t :: rest) =
            countSubs rest + r.batchSize := by
          rw [countSubs_cons_sub t rest hmn]; omega
        refine ⟨⟨[] ++ tr.singles,
          [batch ++ [⟨t.methodName, t.args, r.gas / r.batchSize, 0⟩]] ++
            tr.batches⟩, b2, k2, ?_, ?_, ?_, ?_, ?_⟩
        · simp [replayLoop, hstep, hloop, prependTrace, Trace.app]
        · simp [h1]
        · intro c hc
          rcases List.mem_cons.mp hc with hc1 | hc2
          · rw [hc1]; exact hfull
          · exact h2 c hc2
        · simp only [List.length_append, List.length_cons,
            List.length_nil]
          rw [hcnt, Nat.add_div_right _ hN, h3]
          omega
        · rw [hcnt, Nat.add_mod_right, h4]
      · have hfull2 : ¬(batch.length + 1 = r.batchSize) := by
          simpa using hfull
        have hstep : replayStep r resp t batch k = .cont ⟨[], []⟩
            (batch ++ [⟨t.methodName, t.args, r.gas / r.batchSize, 0⟩]) k := by
          simp [replayStep, herrt, hmn, hbm, hbz, hfull2]
        have hlt2 : (batch ++
            [(⟨t.methodName, t.args, r.gas / r.batchSize, 0⟩ :
              Action)]).length < r.batchSize := by
          simp only [List.length_append, List.length_cons, List.length_nil]
          omega
        obtain ⟨tr, b2, k2, hloop, h1, h2, h3, h4⟩ :=
          ih (batch ++ [⟨t.methodName, t.args, r.gas / r.batchSize, 0⟩]) k
            herr2 hlt2
        have hcnt : (batch ++
            [(⟨t.methodName, t.args, r.gas / r.batchSize, 0⟩ :
              Action)]).length + countSubs rest =
            batch.length + countSubs (t :: rest) := by
          rw [countSubs_cons_sub t rest hmn]
          simp only [List.length_append, List.length_cons, List.length_nil]
          omega
        refine ⟨tr, b2, k2, ?_, h1, h2, ?_, ?_⟩
        · simp [replayLoop, hstep, hloop, prependTrace]
        · rw [h3, hcnt]
        · rw [h4, hcnt]

/-- Claim C4: in batch mode with `BatchSize = N > 0`, for a step stream
with `M` submission steps, no errors and all responses successful, the
in-progress batch after any prefix of the stream stays strictly below `N`
entries (so it never exceeds `N`), the consumer issues exactly
`ceil(M/N) = (M+N-1)/N` physical batch submissions (no single calls), all
of size `N` except the last one of size `M mod N` (or `N` when
`M mod N = 0` and `M > 0`), and a non-empty partial batch left when the
stream ends is flushed as the final submission. -/
theorem consumer_batching (r : Replayer) (resp : Nat → Except String GoMap)
    (steps : List Tx)
    (hbm : r.batch = true) (hN : 0 < r.batchSize)
    (hresp : ∀ k, GoodResp (resp k))
    (herr : ∀ t ∈ steps, t.error = none) :
    ∃ tr, Replay r resp steps = (tr, .ok) ∧ tr.singles = [] ∧
      tr.batches.length =
        (countSubs steps + r.batchSize - 1) / r.batchSize ∧
      (∀ c ∈ tr.batches, c.length ≤ r.batchSize) ∧
      (∀ c ∈ tr.batches.dropLast, c.length = r.batchSize) ∧
      (0 < countSubs steps →
        ∃ lastc, tr.batches.getLast? = some lastc ∧
          lastc.length = (if countSubs steps % r.batchSize = 0 then
            r.batchSize else countSubs steps % r.batchSize)) ∧
      (∀ p q, steps = p ++ q → ∃ tr2 b2 k2,
        replayLoop r resp p [] 0 = .done tr2 b2 k2 ∧
        b2.length < r.batchSize) := by
  obtain ⟨tr0, b2, k2, hloop, h1, h2, h3, h4⟩ :=
    replayLoop_batch_count r resp hbm hN hresp steps [] 0 herr
      (by simpa using hN)
  simp only [List.length_nil, Nat.zero_add] at h3 h4
  have hpref : ∀ p q, steps = p ++ q → ∃ tr2 bb kk,
      replayLoop r resp p [] 0 = .done tr2 bb kk ∧
      bb.length < r.batchSize := by
    intro p q hpq
    obtain ⟨tr2, bb, kk, hl, _, _, _, hmodp⟩ :=
      replayLoop_batch_count r resp hbm hN hresp p [] 0
        (fun t ht => herr t (by rw [hpq]; exact List.mem_append_left q ht))
        (by simpa using hN)
    refine ⟨tr2, bb, kk, hl, ?_⟩
    rw [hmodp]
    exact Nat.mod_lt _ hN
  rw [ceilDiv_eq (countSubs steps) r.batchSize hN]
  by_cases hmod : countSubs steps % r.batchSize = 0
  · have hb2 : b2 = [] := List.length_eq_zero.mp (by rw [h4, hmod])
    have hrep : Replay r resp steps = (tr0, .ok) := by
      simp [Replay, hloop, hb2]
    refine ⟨tr0, hrep, h1, ?_, ?_, ?_, ?_, hpref⟩
    · rw [h3, if_pos hmod]
      omega
    · intro c hc; exact (h2 c hc).le
    · intro c hc; exact h2 c (List.dropLast_sublist tr0.batches |>.subset hc)
    · intro hMpos
      have hMN : r.batchSize ≤ countSubs steps :=
        Nat.le_of_dvd hMpos (Nat.dvd_of_mod_eq_zero hmod)
      have hne : tr0.batches ≠ [] := by
        intro hnil
        rw [hnil] at h3
        have hdiv : 1 ≤ countSubs steps / r.batchSize :=
          (Nat.one_le_div_iff hN).mpr hMN
        simp at h3
        omega
      refine ⟨tr0.batches.getLast hne, List.getLast?_eq_getLast _ hne, ?_⟩
      rw [if_pos hmod]
      exact h2 _ (List.getLast_mem hne)
  · have hb2len : 0 < b2.length := by rw [h4]; omega
    obtain ⟨m, hm, hst⟩ := hresp k2
    obtain ⟨o, ho⟩ := procTxResult_of_statusOk r.batch none m hst
    have hrep : Replay r resp steps =
        (⟨tr0.singles, tr0.batches ++ [b2]⟩, .ok) := by
      simp [Replay, hloop, hb2len, hm, ho]
    refine ⟨_, hrep, by simpa using h1, ?_, ?_, ?_, ?_, hpref⟩
    · show (tr0.batches ++ [b2]).length = _
      rw [if_neg hmod]
      simp [h3]
    · intro c hc
      rcases List.mem_append.mp hc with hc1 | hc2
      · exact (h2 c hc1).le
      · have : c = b2 := by simpa using hc2
        rw [this, h4]
        exact (Nat.mod_lt _ hN).le
    · intro c hc
      show c.length = r.batchSize
      have hdl : (tr0.batches ++ [b2]).dropLast = tr0.batches := by
        rw [List.dropLast_concat]
      rw [hdl] at hc
      exact h2 c hc
    · intro _
      refine ⟨b2, ?_, ?_⟩
      · show (tr0.batches ++ [b2]).getLast? = some b2
        exact List.getLast?_concat _
      · rw [if_neg hmod]
        exact h4

/-- Replayer configuration for the C4 witness: batch mode, batch size 2. -/
def r4 : Replayer := ⟨10, false, true, 2, 0, 0, 0, 0⟩

/-- Witness for C4: three submission steps with batch size 2 — the
consumer issues ceil(3/2) = 2 physical batches, the first of size 2 and
the flushed last one of size 1. -/
theorem consumer_batching_witness :
    ∃ tr, Replay r4 respOk [subStep, subStep, subStep] = (tr, .ok) ∧
      tr.singles = [] ∧
      tr.batches.length =
        (countSubs [subStep, subStep, subStep] + r4.batchSize - 1) /
          r4.batchSize ∧
      (∀ c ∈ tr.batches, c.length ≤ r4.batchSize) ∧
      (∀ c ∈ tr.batches.dropLast, c.length = r4.batchSize) ∧
      (0 < countSubs [subStep, subStep, subStep] →
        ∃ lastc, tr.batches.getLast? = some lastc ∧
          lastc.length =
            (if countSubs [subStep, subStep, subStep] % r4.batchSize = 0
              then r4.batchSize
              else countSubs [subStep, subStep, subStep] % r4.batchSize)) ∧
      (∀ p q, [subStep, subStep, subStep] = p ++ q → ∃ tr2 b2 k2,
        replayLoop r4 respOk p [] 0 = .done tr2 b2 k2 ∧
        b2.length < r4.batchSize) :=
  consumer_batching r4 respOk [subStep, subStep, subStep] rfl (by decide)
    (fun _ => ⟨okRes, rfl, [], rfl, rfl⟩)
    (by intro t ht
        simp [List.mem_cons] at ht
        rcases ht with rfl | rfl | rfl
        all_goals rfl)

/-- All actions a loop result carries: single calls, batched calls, and
the in-progress batch. -/
def LoopRes.acts : LoopRes → List Action
  | .done tr b _ => tr.singles ++ tr.batches.flatten ++ b
  | .stopped tr _ => tr.singles ++ tr.batches.flatten

lemma mem_acts_prependTrace (a : Action) (t : Trace) (res : LoopRes) :
    a ∈ (prependTrace t res).acts ↔
      (a ∈ t.singles ∨ ∃ c ∈ t.batches, a ∈ c) ∨ a ∈ res.acts := by
  cases res with
  | done tr b k =>
    simp only [prependTrace, LoopRes.acts, Trace.app, List.mem_append,
      List.mem_flatten, or_and_right, exists_or]
    aesop
  | stopped tr o =>
    simp only [prependTrace, LoopRes.acts, Trace.app, List.mem_append,
      List.mem_flatten, or_and_right, exists_or]
    aesop

lemma replayLoop_batch_gas (r : Replayer) (resp : Nat → Except String GoMap)
    (hbm : r.batch = true) :
    ∀ steps b k,
      (∀ a ∈ b, a.gas = r.gas / r.batchSize ∧ a.deposit = 0) →
      ∀ a ∈ (replayLoop r resp steps b k).acts,
        a.gas = r.gas / r.batchSize ∧ a.deposit = 0 := by
  intro steps
  induction steps with
  | nil =>
    intro b k hb a ha
    simp only [replayLoop, LoopRes.acts, List.flatten_nil, List.append_nil,
      List.nil_append] at ha
    exact hb a ha
  | cons t rest ih =>
    intro b k hb a ha
    have hact : ∀ x ∈ (b ++
        [(⟨t.methodName, t.args, r.gas / r.batchSize, 0⟩ : Action)]),
        x.gas = r.gas / r.batchSize ∧ x.deposit = 0 := by
      intro x hx
      rcases List.mem_append.mp hx with hx1 | hx2
      · exact hb x hx1
      · have hxe : x = ⟨t.methodName, t.args, r.gas / r.batchSize, 0⟩ := by
          simpa using hx2
        rw [hxe]
        exact ⟨rfl, rfl⟩
    cases herr : t.error with
    | some e =>
      rw [replayLoop, show replayStep r resp t b k = .halt ⟨[], []⟩ (.err e)
        from by simp [replayStep, herr]] at ha
      simp [LoopRes.acts] at ha
    | none =>
      by_cases hmn : t.methodName = ""
      · have hstep : replayStep r resp t b k = .cont ⟨[], []⟩ b k := by
          simp [replayStep, herr, hmn]
        rw [replayLoop, hstep] at ha
        simp only [prependTrace_empty] at ha
        exact ih b k hb a ha
      · by_cases hbz : r.batchSize = 0
        · have hstep : replayStep r resp t b k = .halt ⟨[], []⟩ .panicked := by
            simp [replayStep, herr, hmn, hbm, hbz]
          rw [replayLoop, hstep] at ha
          simp [LoopRes.acts] at ha
        · by_cases hfull : (b ++
              [(⟨t.methodName, t.args, r.gas / r.batchSize, 0⟩ :
                Action)]).length = r.batchSize
          · cases hm : resp k with
            | error e =>
              have hstep : replayStep r resp t b k = .halt ⟨[], [b ++
                  [⟨t.methodName, t.args, r.gas / r.batchSize, 0⟩]]⟩
                  (.err e) := by
                simp [replayStep, herr, hmn, hbm, hbz, hfull, hm]
              rw [replayLoop, hstep] at ha
              simp only [LoopRes.acts] at ha
              simp at ha
              rcases ha with h | h
              · exact hb a h
              · rw [h]; exact ⟨rfl, rfl⟩
            | ok m =>
              cases hpr : procTxResult true t.ethTx m with
              | panicked =>
                have hstep : replayStep r resp t b k = .halt ⟨[], [b ++
                    [⟨t.methodName, t.args, r.gas / r.batchSize, 0⟩]]⟩
                    .panicked := by
                  simp [replayStep, herr, hmn, hbm, hbz, hfull, hm, hpr]
                rw [replayLoop, hstep] at ha
                simp only [LoopRes.acts] at ha
                simp at ha
                rcases ha with h | h
                · exact hb a h
                · rw [h]; exact ⟨rfl, rfl⟩
              | failed o =>
                have hstep : replayStep r resp t b k = .halt ⟨[], [b ++
                    [⟨t.methodName, t.args, r.gas / r.batchSize, 0⟩]]⟩
                    (.err "replayer: transaction failed") := by
                  simp [replayStep, herr, hmn, hbm, hbz, hfull, hm, hpr]
                rw [replayLoop, hstep] at ha
                simp only [LoopRes.acts] at ha
                simp at ha
                rcases ha with h | h
                · exact hb a h
                · rw [h]; exact ⟨rfl, rfl⟩
              | ok o =>
                have hstep : replayStep r resp t b k = .cont ⟨[], [b ++
                    [⟨t.methodName, t.args, r.gas / r.batchSize, 0⟩]]⟩ []
                    (k + 1) := by
                  simp [replayStep, herr, hmn, hbm, hbz, hfull, hm, hpr]
                rw [replayLoop, hstep] at ha
                rcases (mem_acts_prependTrace a _ _).mp ha with hl | hr
                · rcases hl with h | ⟨c, hc, hac⟩
                  · simp at h
                  · have hce : c = b ++
                        [(⟨t.methodName, t.args, r.gas / r.batchSize, 0⟩ :
                          Action)] := by simpa using hc
                    exact hact a (hce ▸ hac)
                · exact ih [] (k + 1) (by simp) a hr
          · have hfull2 : ¬(b.length + 1 = r.batchSize) := by
              simpa using hfull
            have hstep : replayStep r resp t b k = .cont ⟨[], []⟩ (b ++
                [⟨t.methodName, t.args, r.gas / r.batchSize, 0⟩]) k := by
              simp [replayStep, herr, hmn, hbm, hbz, hfull2]
            rw [replayLoop, hstep] at ha
            simp only [prependTrace_empty] at ha
            exact ih _ k hact a ha

lemma replayLoop_single_gas (r : Replayer) (resp : Nat → Except String GoMap)
    (hbm : r.batch = false) :
    ∀ steps b k, (∀ a ∈ b, a.gas = r.gas ∧ a.deposit = 0) →
      ∀ a ∈ (replayLoop r resp steps b k).acts,
        a.gas = r.gas ∧ a.deposit = 0 := by
  intro steps
  induction steps with
  | nil =>
    intro b k hb a ha
    simp only [replayLoop, LoopRes.acts, List.flatten_nil, List.append_nil,
      List.nil_append] at ha
    exact hb a ha
  | cons t rest ih =>
    intro b k hb a ha
    cases herr : t.error with
    | some e =>
      rw [replayLoop, show replayStep r resp t b k = .halt ⟨[], []⟩ (.err e)
        from by simp [replayStep, herr]] at ha
      simp [LoopRes.acts] at ha
    | none =>
      by_cases hmn : t.methodName = ""
      · have hstep : replayStep r resp t b k = .cont ⟨[], []⟩ b k := by
          simp [replayStep, herr, hmn]
        rw [replayLoop, hstep] at ha
        simp only [prependTrace_empty] at ha
        exact ih b k hb a ha
      · cases hm : resp k with
        | error e =>
          have hstep : replayStep r resp t b k =
              .halt ⟨[⟨t.methodName, t.args, r.gas, 0⟩], []⟩ (.err e) := by
            simp [replayStep, herr, hmn, hbm, hm]
          rw [replayLoop, hstep] at ha
          simp [LoopRes.acts] at ha
          rw [ha]
          exact ⟨rfl, rfl⟩
        | ok m =>
          cases hpr : procTxResult false t.ethTx m with
          | panicked =>
            have hstep : replayStep r resp t b k =
                .halt ⟨[⟨t.methodName, t.args, r.gas, 0⟩], []⟩ .panicked := by
              simp [replayStep, herr, hmn, hbm, hm, hpr]
            rw [replayLoop, hstep] at ha
            simp [LoopRes.acts] at ha
            rw [ha]
            exact ⟨rfl, rfl⟩
          | failed o =>
            have hstep : replayStep r resp t b k =
                .halt ⟨[⟨t.methodName, t.args, r.gas, 0⟩], []⟩
                  (.err "replayer: transaction failed") := by
              simp [replayStep, herr, hmn, hbm, hm, hpr]
            rw [replayLoop, hstep] at ha
            simp [LoopRes.acts] at ha
            rw [ha]
            exact ⟨rfl, rfl⟩
          | ok o =>
            have hstep : replayStep r resp t b k =
                .cont ⟨[⟨t.methodName, t.args, r.gas, 0⟩], []⟩ b (k + 1) := by
              simp [replayStep, herr, hmn, hbm, hm, hpr]
            rw [replayLoop, hstep] at ha
            rcases (mem_acts_prependTrace a _ _).mp ha with hl | hr
            · rcases hl with h | ⟨c, hc, _⟩
              · have hae : a = ⟨t.methodName, t.args, r.gas, 0⟩ := by
                  simpa using h
                rw [hae]
                exact ⟨rfl, rfl⟩
              · simp at hc
            · exact ih b (k + 1) hb a hr

/-- Claim C8: for every source transaction in the active window the gas
allotment of its submission step is the configured Gas divided by
BatchSize with integer division (both in the step's diagnostic comment,
via the formatted amount, and in batch mode in the batched action's gas
field), whereas with batching disabled every single call is issued with
the full configured Gas and a zero deposit. -/
theorem gasAllotment (r : Replayer) (env : Env)
    (resp : Nat → Except String GoMap) (amt : String)
    (hN : r.batchSize ≠ 0)
    (hfmt : env.fmtNear (r.gas / r.batchSize) = .ok amt) :
    (∀ h i tx bs rest,
      ¬(r.breakBlock ≠ 0 ∧ h = r.breakBlock ∧ i = r.breakTx) →
      ¬(h = r.startBlock ∧ i < r.startTx) →
      tx.rlp = .ok bs →
      (genTxLoop r env h i (tx :: rest)).1 =
        { comment := submitMsg h i bs.length amt, methodName := "submit",
          args := bs, ethTx := some tx, error := none } ::
          (genTxLoop r env h (i + 1) rest).1) ∧
    (r.batch = true → ∀ steps k,
      ∀ a ∈ (replayLoop r resp steps [] k).acts,
        a.gas = r.gas / r.batchSize ∧ a.deposit = 0) ∧
    (r.batch = false → ∀ steps k,
      ∀ a ∈ (replayLoop r resp steps [] k).acts,
        a.gas = r.gas ∧ a.deposit = 0) := by
  refine ⟨?_, ?_, ?_⟩
  · intro h i tx bs rest hbr hsk hx
    simp only [genTxLoop]
    rw [if_neg hbr, if_neg hsk]
    simp [hx, hN, hfmt]
  · intro hbm steps k
    exact replayLoop_batch_gas r resp hbm steps [] k (by simp)
  · intro hbm steps k
    exact replayLoop_single_gas r resp hbm steps [] k (by simp)

/-- Witness for C8: the submission step for the transaction at position
(2, 0) carries the formatted allotment "5" = 10/2 Ⓝ-units in its comment
under batch size 2 and gas budget 10. -/
theorem gasAllotment_witness :
    (genTxLoop r4 env3 2 0 [t30]).1 =
      { comment := submitMsg 2 0 1 "5", methodName := "submit",
        args := [1], ethTx := some t30, error := none } ::
        (genTxLoop r4 env3 2 1 []).1 :=
  (gasAllotment r4 env3 respOk "5" (by decide) rfl).1 2 0 t30 [1] []
    (by decide) (by decide) rfl

/-- Go's `int(x)` conversion of the float product: truncation toward
zero.  The float64 arithmetic of the source is modelled by exact rational
arithmetic. -/
def goTrunc (q : ℚ) : ℤ := if 0 ≤ q then ⌊q⌋ else -⌊-q⌋

/-- One wait-time update of `ExponentialBackoff`:
`waitTime = int(float64(waitTime) * waitBackoff)`. -/
def backoffStep (waitBackoff : ℚ) (w : ℤ) : ℤ := goTrunc ((w : ℚ) * waitBackoff)

/-- The retry loop of `ExponentialBackoff`: at most `n` more attempts,
`i` the index of the next invocation (the oracle `fn` gives the result of
the `i`-th invocation), `w` the current wait time.  Returns the sleeps
performed (one per failed attempt, each preceded by logging the error)
and the final result. -/
def backoffLoop (waitBackoff : ℚ) (fn : Nat → Except String GoMap) :
    Nat → Nat → ℤ → List ℤ × Except String GoMap
  | 0, _, _ => ([], .error "utils: exponential backoff failed")
  | n + 1, i, w =>
    match fn i with
    | .ok res => ([], .ok res)
    | .error _ =>
      let r2 := backoffLoop waitBackoff fn n (i + 1) (backoffStep waitBackoff w)
      (w :: r2.1, r2.2)

/-- `ExponentialBackoff` of `nearapi/utils`: invoke the operation up to
`retryNumber` times, sleeping the current wait time after each failure
and multiplying the wait time by the backoff factor. -/
def ExponentialBackoff (startWaitTime : ℤ) (retryNumber : Nat)
    (waitBackoff : ℚ) (fn : Nat → Except String GoMap) :
    List ℤ × Except String GoMap :=
  backoffLoop waitBackoff fn retryNumber 0 startWaitTime

/-- The wait time before the `k`-th retry: the `k`-fold backoff update of
the start wait time. -/
def waitSeq (waitBackoff : ℚ) (start : ℤ) (k : Nat) : ℤ :=
  (backoffStep waitBackoff)^[k] start

lemma backoffLoop_allFail (q : ℚ) (fn : Nat → Except String GoMap) :
    ∀ n i w, (∀ j, j < n → ∃ e, fn (i + j) = .error e) →
      backoffLoop q fn n i w = ((List.range n).map (waitSeq q w),
        .error "utils: exponential backoff failed") := by
  intro n
  induction n with
  | zero => intro i w _; simp [backoffLoop]
  | succ m ih =>
    intro i w hf
    obtain ⟨e, he⟩ := hf 0 (Nat.succ_pos m)
    rw [Nat.add_zero] at he
    have ihr := ih (i + 1) (backoffStep q w) (fun j hj => by
      have h1 := hf (j + 1) (by omega)
      have h2 : i + (j + 1) = i + 1 + j := by omega
      rw [h2] at h1
      exact h1)
    simp only [backoffLoop, he, ihr]
    rw [List.range_succ_eq_map]
    simp [waitSeq, Function.iterate_succ_apply, List.map_map, Function.comp]

lemma backoffLoop_firstOk (q : ℚ) (fn : Nat → Except String GoMap) :
    ∀ k n i w res, k < n → (∀ j, j < k → ∃ e, fn (i + j) = .error e) →
      fn (i + k) = .ok res →
      backoffLoop q fn n i w = ((List.range k).map (waitSeq q w), .ok res) := by
  intro k
  induction k with
  | zero =>
    intro n i w res hk _ hok
    rw [Nat.add_zero] at hok
    cases n with
    | zero => omega
    | succ m => simp [backoffLoop, hok]
  | succ l ih =>
    intro n i w res hk hf hok
    obtain ⟨e, he⟩ := hf 0 (Nat.succ_pos l)
    rw [Nat.add_zero] at he
    cases n with
    | zero => omega
    | succ m =>
      have hsh : i + (l + 1) = i + 1 + l := by omega
      rw [hsh] at hok
      have ihr := ih m (i + 1) (backoffStep q w) res (by omega)
        (fun j hj => by
          have h1 := hf (j + 1) (by omega)
          have h2 : i + (j + 1) = i + 1 + j := by omega
          rw [h2] at h1
          exact h1)
        hok
      simp only [backoffLoop, he, ihr]
      rw [List.range_succ_eq_map]
      simp [waitSeq, Function.iterate_succ_apply, List.map_map, Function.comp]

lemma backoffLoop_congr (q : ℚ) :
    ∀ n i w (fn1 fn2 : Nat → Except String GoMap),
      (∀ j, j < n → fn1 (i + j) = fn2 (i + j)) →
      backoffLoop q fn1 n i w = backoffLoop q fn2 n i w := by
  intro n
  induction n with
  | zero => intro i w fn1 fn2 _; rfl
  | succ m ih =>
    intro i w fn1 fn2 h
    have h0 := h 0 (Nat.succ_pos m)
    rw [Nat.add_zero] at h0
    have ihr := ih (i + 1) (backoffStep q w) fn1 fn2 (fun j hj => by
      have h1 := h (j + 1) (by omega)
      have h2 : i + (j + 1) = i + 1 + j := by omega
      rw [h2] at h1
      exact h1)
    simp only [backoffLoop, h0, ihr]

/-- Claim C7: the retry helper invokes the operation at most `n` times
(its result only depends on the first `n` oracle values); when the first
`k < n` invocations fail and the `k`-th succeeds it returns that result
immediately after sleeping, for each failure, the current wait time
(logged and multiplied by the backoff factor each round, starting at the
initial wait); when all `n` invocations fail it returns the
"utils: exponential backoff failed" (RetryExhausted) error after `n`
sleeps. -/
theorem retryHelper_backoff (s : ℤ) (n : Nat) (q : ℚ)
    (fn : Nat → Except String GoMap) :
    ((∀ i, i < n → ∃ e, fn i = .error e) →
      ExponentialBackoff s n q fn = ((List.range n).map (waitSeq q s),
        .error "utils: exponential backoff failed")) ∧
    (∀ k res, k < n → (∀ i, i < k → ∃ e, fn i = .error e) →
      fn k = .ok res →
      ExponentialBackoff s n q fn =
        ((List.range k).map (waitSeq q s), .ok res)) ∧
    (∀ fn2, (∀ i, i < n → fn2 i = fn i) →
      ExponentialBackoff s n q fn2 = ExponentialBackoff s n q fn) := by
  refine ⟨?_, ?_, ?_⟩
  · intro hf
    exact backoffLoop_allFail q fn n 0 s (fun j hj => by simpa using hf j hj)
  · intro k res hk hf hok
    exact backoffLoop_firstOk q fn k n 0 s res hk
      (fun j hj => by simpa using hf j hj) (by simpa using hok)
  · intro fn2 h
    exact backoffLoop_congr q n 0 s fn2 fn (fun j hj => by simpa using h j hj)

/-- Operation oracle for the C7 witness: the first invocation fails, the
second succeeds. -/
def fnW : Nat → Except String GoMap :=
  fun i => if i = 0 then .error "boom" else .ok okRes

/-- Witness for C7: with two retries, initial wait 10 and backoff factor
2, the first failure sleeps 10 and the second invocation's result is
returned immediately. -/
theorem retryHelper_backoff_witness :
    ExponentialBackoff 10 2 2 fnW = ([10], .ok okRes) := by
  have h := (retryHelper_backoff 10 2 2 fnW).2.1 1 okRes (by decide)
    (fun i hi => by
      have hi0 : i = 0 := by omega
      subst hi0
      exact ⟨"boom", rfl⟩)
    rfl
  simpa [waitSeq] using h

end Bully
